import Mathlib

/-!
# Verification of the gmail-catchup retrieval pipeline and triage queue engine

Shallow embedding of the core of the `gmail-catchup` repository:

* the grouping function `groupEmailsBySender` and its helpers
  (from `src/services/gmail.ts`),
* the single-message fetch with rate-limit backoff `fetchMessage`
  (from `src/services/gmail.ts`),
* the bounded-concurrency worker pool `parallelMap` used by the batched
  label mutations `markMultipleAsRead` / `markMultipleAsUnread`
  (from `src/services/gmail.ts`),
* the dual-queue triage state machine of the `CatchUpView` component
  (action handlers `handleMarkAsRead`, `handleSkip`, `handleTodo`,
  `handleUndo`, `handleEmailAction` and the navigation helper
  `advanceToNext`).

Modelling conventions:

* JavaScript `Date` values are represented by their `getTime()` value as
  an `Int` (milliseconds since epoch).
* React state handlers read the component state variables from the render
  snapshot (closure capture) while `setX(prev => ...)` functional updates
  operate on the latest queued value.  Handlers are therefore embedded as
  pure functions `EngineState → EngineState` computed from the snapshot,
  with queued updates applied in program order; `advanceToNext` takes both
  the snapshot (`snap`) and the state with updates queued so far (`cur`).
* Remote label mutations are fire-and-forget relative to local state; a
  handler is embedded as `EngineState → EngineState × List RemoteCall`,
  the second component being the list of remote calls it dispatches
  (success path; the `catch` branches only log).
* `Array.prototype.sort` (ES2019: a stable sort) with comparator
  `(a, b) => b.date.getTime() - a.date.getTime()` is modelled by the
  stable `List.insertionSort` with the relation `dateGe`.
-/

/-- The `ParsedEmail` record of `src/types/gmail.ts`.  The source field
`from` is called `fromName` here because `from` is reserved in Lean. -/
structure ParsedEmail where
  id : String
  threadId : String
  fromName : String
  fromEmail : String
  subject : String
  snippet : String
  bodyText : String
  bodyHtml : String
  date : Int
  isUnread : Bool
  isStarred : Bool
  isImportant : Bool
  labels : List String
deriving DecidableEq, Repr

/-- The `SenderGroup` record of `src/types/gmail.ts`. -/
structure SenderGroup where
  senderEmail : String
  senderName : String
  emails : List ParsedEmail
deriving DecidableEq, Repr

/-- Helper to build concrete emails in witnesses and counterexamples;
only the fields relevant to the engine are taken. -/
def mkEmail (id fromName fromEmail : String) (date : Int) : ParsedEmail :=
  { id := id, threadId := id, fromName := fromName, fromEmail := fromEmail
    subject := "", snippet := "", bodyText := "", bodyHtml := ""
    date := date, isUnread := true, isStarred := false, isImportant := false
    labels := ["UNREAD"] }

/-- Comparator relation of `(a, b) => b.date.getTime() - a.date.getTime()`:
`a` sorts no later than `b` iff `a`'s send time is at least `b`'s. -/
def dateGe (a b : ParsedEmail) : Prop := b.date ≤ a.date

instance : DecidableRel dateGe := fun a b => Int.decLe b.date a.date

instance : IsTotal ParsedEmail dateGe := ⟨fun a b => le_total b.date a.date⟩

instance : IsTrans ParsedEmail dateGe :=
  ⟨fun _ _ _ h1 h2 => le_trans h2 h1⟩

/-- `emails.sort((a, b) => b.date.getTime() - a.date.getTime())`:
a stable sort by send time descending. -/
def sortEmailsDesc (l : List ParsedEmail) : List ParsedEmail :=
  l.insertionSort dateGe

/-- JavaScript `String.prototype.toLowerCase()` modelled character-wise.
(The library `String.toLower` is extensionally the same function, but this
structural form reduces inside the kernel, which concrete witnesses need.) -/
def jsToLower (s : String) : String := ⟨s.data.map Char.toLower⟩

/-- Lower-cased sender address of an email — the grouping key
(`email.fromEmail.toLowerCase()`). -/
def emailKey (e : ParsedEmail) : String := jsToLower e.fromEmail

/-- Lower-cased sender address of a group — the key it is stored under. -/
def senderKey (g : SenderGroup) : String := jsToLower g.senderEmail

/-! ## Grouping (`groupEmailsBySender`, src/services/gmail.ts lines 234-265) -/

/-- One step of the accumulation loop of `groupEmailsBySender`: look the
email's key up in the insertion-ordered map (here an insertion-ordered
list with distinct keys, searched front to back); push onto the existing
group's email array, or append a fresh group. -/
def insertEmail : List SenderGroup → ParsedEmail → List SenderGroup
  | [], e => [{ senderEmail := e.fromEmail, senderName := e.fromName, emails := [e] }]
  | g :: gs, e =>
    if jsToLower g.senderEmail == jsToLower e.fromEmail then
      { g with emails := g.emails ++ [e] } :: gs
    else
      g :: insertEmail gs e

/-- The `for (const email of emails)` accumulation into the `Map`,
yielding the groups in first-seen (insertion) order. -/
def buildGroups (emails : List ParsedEmail) : List SenderGroup :=
  emails.foldl insertEmail []

/-- `a.emails[0].date.getTime()` — the time of the group's first email
(the most recent one once the group is sorted descending). Groups built
by `buildGroups` are never empty, so the default is never used. -/
def latestTime (g : SenderGroup) : Int :=
  (g.emails.head?.map (·.date)).getD 0

/-- Comparator relation of the group sort
`(a, b) => bLatest - aLatest`. -/
def groupGe (a b : SenderGroup) : Prop := latestTime b ≤ latestTime a

instance : DecidableRel groupGe := fun a b => Int.decLe (latestTime b) (latestTime a)

instance : IsTotal SenderGroup groupGe := ⟨fun a b => le_total (latestTime b) (latestTime a)⟩

instance : IsTrans SenderGroup groupGe :=
  ⟨fun _ _ _ h1 h2 => le_trans h2 h1⟩

/-- `groupEmailsBySender` (src/services/gmail.ts lines 234-265): group by
lower-cased sender, sort each group's emails by send time descending,
then sort the groups by their most recent email's time descending. -/
def groupEmailsBySender (emails : List ParsedEmail) : List SenderGroup :=
  (((buildGroups emails).map
    (fun g => { g with emails := sortEmailsDesc g.emails })).insertionSort groupGe)

/-! ## Remote mutation calls -/

/-- A label-mutation request dispatched to the mailbox API: `markAsRead`
removes the UNREAD label of one message id, `markAsUnread` adds it. -/
inductive RemoteCall where
  | markRead (messageId : String)
  | markUnread (messageId : String)
deriving DecidableEq, Repr

/-! ## The triage queue engine (CatchUpView, src/unnamed/part_002) -/

/-- `type ActionType = 'read' | 'skip' | 'todo'`. -/
inductive ActionType where
  | read
  | skip
  | todo
deriving DecidableEq, Repr

/-- The `Action` tagged union (part_002 lines 17-32).  The constructor
argument `kind` is the source field `type`; `groupIndex` is `-1` when the
action was taken while reviewing todos. -/
inductive TriageAction where
  | group (kind : ActionType) (group : SenderGroup) (groupIndex : Int)
  | email (kind : ActionType) (email : ParsedEmail) (groupIndex : Int)
      (originalGroup : SenderGroup)
deriving DecidableEq, Repr

/-- The React state of `CatchUpView` that the triage engine mutates
(part_002 lines 37-50; loading/animation/UI-only state omitted). -/
structure EngineState where
  senderGroups : List SenderGroup
  currentIndex : Int
  todoGroups : List SenderGroup
  actionHistory : List TriageAction
  showComplete : Bool
  reviewingTodos : Bool
deriving DecidableEq, Repr

/-- JavaScript array indexing `arr[i]`: `undefined` (here `none`) when the
index is negative or past the end. -/
def jsGet (l : List α) (i : Int) : Option α :=
  if i < 0 then none else l[i.toNat]?

/-- `currentGroup = reviewingTodos ? todoGroups[0] : senderGroups[currentIndex]`
(part_002 line 145). -/
def EngineState.currentGroup (s : EngineState) : Option SenderGroup :=
  if s.reviewingTodos then s.todoGroups.head? else jsGet s.senderGroups s.currentIndex

/-- `advanceToNext` (part_002 lines 198-214).  `snap` is the render
snapshot the handler closed over; `cur` carries the updates queued so far
in the same handler invocation.  The branch conditions read `snap`
(closure capture), the functional updates read `cur`. -/
def advanceToNext (snap cur : EngineState) : EngineState :=
  if snap.reviewingTodos then
    let next := cur.todoGroups.drop 1
    { cur with
      todoGroups := next
      showComplete := if next.isEmpty then true else cur.showComplete }
  else if snap.currentIndex < (snap.senderGroups.length : Int) - 1 then
    { cur with currentIndex := cur.currentIndex + 1 }
  else if snap.todoGroups.length > 0 then
    { cur with reviewingTodos := true }
  else
    { cur with showComplete := true }

/-- `handleMarkAsRead` (part_002 lines 229-241): record a group-scope read
action, advance, and dispatch a batched mark-as-read (one single-item call
per message id of the group, see `markMultipleAsRead`). -/
def handleMarkAsRead (s : EngineState) : EngineState × List RemoteCall :=
  match s.currentGroup with
  | none => (s, [])
  | some g =>
    let s1 := { s with
      actionHistory := s.actionHistory ++
        [TriageAction.group .read g (if s.reviewingTodos then -1 else s.currentIndex)] }
    (advanceToNext s s1, g.emails.map (fun e => RemoteCall.markRead e.id))

/-- `handleSkip` (part_002 lines 243-249): record a group-scope skip
action and advance; no remote effect. -/
def handleSkip (s : EngineState) : EngineState × List RemoteCall :=
  match s.currentGroup with
  | none => (s, [])
  | some g =>
    let s1 := { s with
      actionHistory := s.actionHistory ++
        [TriageAction.group .skip g (if s.reviewingTodos then -1 else s.currentIndex)] }
    (advanceToNext s s1, [])

/-- The todo merge of `handleTodo` (part_002 lines 266-277):
`findIndex` on the lower-cased sender, update the first matching group by
concatenating the email arrays, else append the group. -/
def mergeTodoGroup : List SenderGroup → SenderGroup → List SenderGroup
  | [], g => [g]
  | t :: ts, g =>
    if jsToLower t.senderEmail == jsToLower g.senderEmail then
      { t with emails := t.emails ++ g.emails } :: ts
    else
      t :: mergeTodoGroup ts g

/-- `handleTodo` (part_002 lines 251-279).  While reviewing todos it
rotates the head of the todo queue to the tail (no history entry); while
browsing it records the action, merges the group into the todo queue and
advances (the advance reads the snapshot todo queue). -/
def handleTodo (s : EngineState) : EngineState × List RemoteCall :=
  match s.currentGroup with
  | none => (s, [])
  | some g =>
    if s.reviewingTodos then
      ({ s with todoGroups :=
          if s.todoGroups.length ≤ 1 then s.todoGroups
          else s.todoGroups.drop 1 ++ s.todoGroups.take 1 }, [])
    else
      let s1 := { s with
        actionHistory := s.actionHistory ++ [TriageAction.group .todo g s.currentIndex] }
      let s2 := { s1 with todoGroups := mergeTodoGroup s1.todoGroups g }
      (advanceToNext s s2, [])

/-- Undo of a group-scope todo action (part_002 lines 305-317): from the
todo group with the matching sender, remove exactly the undone action's
email ids; delete the group when it becomes empty. -/
def removeGroupEmailsFromTodos (todos : List SenderGroup) (g : SenderGroup) :
    List SenderGroup :=
  todos.filterMap (fun t =>
    if jsToLower t.senderEmail == jsToLower g.senderEmail then
      let remaining := t.emails.filter (fun e => !(g.emails.any (fun x => x.id == e.id)))
      if remaining.isEmpty then none else some { t with emails := remaining }
    else some t)

/-- Undo of an email-scope todo action (part_002 lines 339-350): remove
the single email id from the todo group with the matching sender; delete
the group when it becomes empty. -/
def removeEmailFromTodos (todos : List SenderGroup) (email : ParsedEmail) :
    List SenderGroup :=
  todos.filterMap (fun t =>
    if jsToLower t.senderEmail == jsToLower email.fromEmail then
      let remaining := t.emails.filter (fun e => !(e.id == email.id))
      if remaining.isEmpty then none else some { t with emails := remaining }
    else some t)

/-- The splice-back of an email-scope undo (part_002 lines 361-369): if
the group at the recorded index still has the original sender, append the
email and re-sort by send time descending. -/
def spliceEmailBack (groups : List SenderGroup) (gi : Int) (email : ParsedEmail)
    (og : SenderGroup) : List SenderGroup :=
  match jsGet groups gi with
  | some g =>
    if jsToLower g.senderEmail == jsToLower og.senderEmail then
      groups.set gi.toNat { g with emails := sortEmailsDesc (g.emails ++ [email]) }
    else groups
  | none => groups

/-- `handleUndo` (part_002 lines 281-371), success path of the remote
calls (the `catch` branches only log or surface auth expiry). -/
def handleUndo (s : EngineState) : EngineState × List RemoteCall :=
  match s.actionHistory.getLast? with
  | none => (s, [])
  | some lastAction =>
    let s1 := { s with actionHistory := s.actionHistory.dropLast }
    match lastAction with
    | .group kind g gi =>
      if gi == -1 then
        -- action taken while reviewing todos: re-push the group to the
        -- front of the todo queue
        let calls := if kind == .read then g.emails.map (fun e => RemoteCall.markUnread e.id) else []
        ({ s1 with todoGroups := g :: s1.todoGroups, showComplete := false }, calls)
      else
        let s2 := if kind == .todo then
            { s1 with todoGroups := removeGroupEmailsFromTodos s1.todoGroups g }
          else s1
        let calls := if kind == .read then g.emails.map (fun e => RemoteCall.markUnread e.id) else []
        let s3 := if s.reviewingTodos then { s2 with reviewingTodos := false } else s2
        ({ s3 with currentIndex := s3.currentIndex - 1, showComplete := false }, calls)
    | .email kind email gi og =>
      let s2 := if kind == .todo then
          { s1 with todoGroups := removeEmailFromTodos s1.todoGroups email }
        else s1
      let calls := if kind == .read then [RemoteCall.markUnread email.id] else []
      ({ s2 with senderGroups := spliceEmailBack s2.senderGroups gi email og }, calls)

/-- The email-scope todo merge of `handleEmailAction` (part_002 lines
397-412): merge the single email into the todo group with its sender,
keeping that group sorted by send time descending, else append a fresh
single-email group. -/
def mergeEmailIntoTodos : List SenderGroup → ParsedEmail → List SenderGroup
  | [], e => [{ senderEmail := e.fromEmail, senderName := e.fromName, emails := [e] }]
  | t :: ts, e =>
    if jsToLower t.senderEmail == jsToLower e.fromEmail then
      { t with emails := sortEmailsDesc (t.emails ++ [e]) } :: ts
    else
      t :: mergeEmailIntoTodos ts e

/-- `handleEmailAction` (part_002 lines 373-437), success path of the
remote call. -/
def handleEmailAction (s : EngineState) (emailId : String) (kind : ActionType) :
    EngineState × List RemoteCall :=
  match s.currentGroup with
  | none => (s, [])
  | some g =>
    match g.emails.find? (fun e => e.id == emailId) with
    | none => (s, [])
    | some email =>
      let s1 := { s with
        actionHistory := s.actionHistory ++
          [TriageAction.email kind email (if s.reviewingTodos then -1 else s.currentIndex) g] }
      let calls := if kind == .read then [RemoteCall.markRead emailId] else []
      let s2 := if kind == .todo && !s.reviewingTodos then
          { s1 with todoGroups := mergeEmailIntoTodos s1.todoGroups email }
        else s1
      let updatedEmails := g.emails.filter (fun e => !(e.id == emailId))
      if s.reviewingTodos then
        if updatedEmails.isEmpty then
          (advanceToNext s s2, calls)
        else
          -- reviewing todos implies the todo queue is non-empty
          (({ s2 with todoGroups :=
              match s2.todoGroups with
              | [] => s2.todoGroups
              | t :: ts => { t with emails := updatedEmails } :: ts }), calls)
      else
        if updatedEmails.isEmpty then
          (advanceToNext s s2, calls)
        else
          ({ s2 with senderGroups :=
              s.senderGroups.set s.currentIndex.toNat { g with emails := updatedEmails } },
            calls)

/-- The state reached right after a fresh fetch (part_002 lines 119-126):
groups from `groupEmailsBySender`, cursor 0, empty todo queue and history,
flags cleared. -/
def freshState (emails : List ParsedEmail) : EngineState :=
  { senderGroups := groupEmailsBySender emails
    currentIndex := 0
    todoGroups := []
    actionHistory := []
    showComplete := false
    reviewingTodos := false }

/-! ## Frame lemmas for `advanceToNext` -/

theorem advanceToNext_senderGroups (snap cur : EngineState) :
    (advanceToNext snap cur).senderGroups = cur.senderGroups := by
  unfold advanceToNext
  split <;> [skip; split <;> [skip; split]] <;> rfl

theorem advanceToNext_actionHistory (snap cur : EngineState) :
    (advanceToNext snap cur).actionHistory = cur.actionHistory := by
  unfold advanceToNext
  split <;> [skip; split <;> [skip; split]] <;> rfl

theorem advanceToNext_browsing_todoGroups (snap cur : EngineState)
    (h : snap.reviewingTodos = false) :
    (advanceToNext snap cur).todoGroups = cur.todoGroups := by
  unfold advanceToNext
  rw [h]
  simp only [Bool.false_eq_true, if_false]
  split <;> [rfl; split] <;> rfl

/-! ## Merge lemmas for the group-scope todo merge -/

theorem mergeTodoGroup_of_no_match (todos : List SenderGroup) (g : SenderGroup)
    (h : ∀ t ∈ todos, jsToLower t.senderEmail ≠ jsToLower g.senderEmail) :
    mergeTodoGroup todos g = todos ++ [g] := by
  induction todos with
  | nil => rfl
  | cons t ts ih =>
    have ht := h t (List.mem_cons_self t ts)
    simp only [mergeTodoGroup, beq_eq_false_iff_ne.mpr ht, Bool.false_eq_true, if_false,
      List.cons_append, List.cons.injEq, true_and]
    exact ih (fun t' ht' => h t' (List.mem_cons_of_mem t ht'))

theorem handleTodo_browsing (s : EngineState) (g : SenderGroup)
    (h1 : s.reviewingTodos = false) (h2 : s.currentGroup = some g) :
    handleTodo s
      = (advanceToNext s
          { s with
            actionHistory := s.actionHistory ++ [TriageAction.group .todo g s.currentIndex]
            todoGroups := mergeTodoGroup s.todoGroups g }, []) := by
  unfold handleTodo
  rw [h2]
  simp only [h1, Bool.false_eq_true, if_false]

theorem mergeTodoGroup_update (todos : List SenderGroup) (g1 g2 : SenderGroup)
    (h : ∀ t ∈ todos, jsToLower t.senderEmail ≠ jsToLower g2.senderEmail)
    (hk : jsToLower g1.senderEmail = jsToLower g2.senderEmail) :
    mergeTodoGroup (todos ++ [g1]) g2
      = todos ++ [{ g1 with emails := g1.emails ++ g2.emails }] := by
  induction todos with
  | nil =>
    simp only [List.nil_append, mergeTodoGroup, hk, beq_self_eq_true, if_true]
  | cons t ts ih =>
    have ht := h t (List.mem_cons_self t ts)
    simp only [List.cons_append, mergeTodoGroup, beq_eq_false_iff_ne.mpr ht,
      Bool.false_eq_true, if_false, List.cons.injEq, true_and]
    exact ih (fun t' ht' => h t' (List.mem_cons_of_mem t ht'))

/-! ## Concrete inputs used by counterexamples and witnesses -/

/-- Email "m1" from alice@example.com, sent at time 1. -/
def cEmailA : ParsedEmail := mkEmail "m1" "Alice" "alice@example.com" 1

/-- Email "m2" from the same sender, sent later (time 2). -/
def cEmailB : ParsedEmail := mkEmail "m2" "Alice" "alice@example.com" 2

/-- A one-email group for alice@example.com holding `cEmailA`. -/
def cGroupA : SenderGroup :=
  { senderEmail := "alice@example.com", senderName := "Alice", emails := [cEmailA] }

/-- A one-email group for the same sender holding `cEmailB`. -/
def cGroupB : SenderGroup :=
  { senderEmail := "alice@example.com", senderName := "Alice", emails := [cEmailB] }

/-- Browsing state whose main queue holds the two same-sender groups. -/
def twoGroupState : EngineState :=
  { senderGroups := [cGroupA, cGroupB], currentIndex := 0, todoGroups := []
    actionHistory := [], showComplete := false, reviewingTodos := false }

/-- Browsing state whose main queue holds the single group `cGroupA`. -/
def soloState : EngineState :=
  { senderGroups := [cGroupA], currentIndex := 0, todoGroups := []
    actionHistory := [], showComplete := false, reviewingTodos := false }

/-! ## C1 -/

/-- C1, counterexample: in `twoGroupState` the two main-queue groups share
the sender alice@example.com; `markGroupTodo` on the first (emails at time
1) and then on the second (time 2) while browsing merges by plain
concatenation (`[...existing.emails, ...currentGroup.emails]`, part_002
line 272), so the single resulting todo group holds `[cEmailA, cEmailB]`
— which is ascending, not sorted by send time descending as the claim
states. -/
theorem c1_counterexample :
    ((handleTodo (handleTodo twoGroupState).1).1).todoGroups
        = [{ senderEmail := "alice@example.com", senderName := "Alice",
             emails := [cEmailA, cEmailB] }] ∧
    ¬ List.Pairwise dateGe [cEmailA, cEmailB] := by
  decide

/-- C1, amended: two `markGroupTodo` calls while browsing on groups with
the same lower-cased sender produce exactly one todo group for that
sender, whose email list is the concatenation of g1's and g2's emails in
that order (their union); the list is not re-sorted, so it is sorted by
send time descending only when every email of g1 is at least as recent as
every email of g2. -/
theorem c1_todoMerge_amended (s : EngineState) (g1 g2 : SenderGroup)
    (h1 : s.reviewingTodos = false)
    (h2 : s.currentGroup = some g1)
    (h3 : ∀ t ∈ s.todoGroups, jsToLower t.senderEmail ≠ jsToLower g1.senderEmail)
    (h4 : ((handleTodo s).1).reviewingTodos = false)
    (h5 : ((handleTodo s).1).currentGroup = some g2)
    (h6 : jsToLower g2.senderEmail = jsToLower g1.senderEmail) :
    ((handleTodo (handleTodo s).1).1).todoGroups.filter
        (fun t => jsToLower t.senderEmail == jsToLower g1.senderEmail)
      = [{ senderEmail := g1.senderEmail, senderName := g1.senderName,
           emails := g1.emails ++ g2.emails }] := by
  have hs1 : ((handleTodo s).1).todoGroups = s.todoGroups ++ [g1] := by
    rw [handleTodo_browsing s g1 h1 h2]
    rw [advanceToNext_browsing_todoGroups _ _ h1]
    exact mergeTodoGroup_of_no_match _ _ h3
  have hs2 : ((handleTodo (handleTodo s).1).1).todoGroups
      = s.todoGroups ++ [{ g1 with emails := g1.emails ++ g2.emails }] := by
    rw [handleTodo_browsing (handleTodo s).1 g2 h4 h5]
    rw [advanceToNext_browsing_todoGroups _ _ h4, hs1]
    exact mergeTodoGroup_update _ _ _ (fun t ht => h6 ▸ h3 t ht) h6.symm
  rw [hs2, List.filter_append]
  have hnil : s.todoGroups.filter
      (fun t => jsToLower t.senderEmail == jsToLower g1.senderEmail) = [] := by
    rw [List.filter_eq_nil_iff]
    intro t ht
    simpa using h3 t ht
  rw [hnil]
  simp

/-- C1, witness for the amended theorem at the concrete two-group state. -/
theorem c1_todoMerge_amended_witness :
    twoGroupState.currentGroup = some cGroupA ∧
    ((handleTodo (handleTodo twoGroupState).1).1).todoGroups.filter
        (fun t => jsToLower t.senderEmail == jsToLower cGroupA.senderEmail)
      = [{ senderEmail := cGroupA.senderEmail, senderName := cGroupA.senderName,
           emails := cGroupA.emails ++ cGroupB.emails }] :=
  ⟨by decide,
   c1_todoMerge_amended twoGroupState cGroupA cGroupB (by decide) (by decide)
     (by decide) (by decide) (by decide) (by decide)⟩

/-! ## C2 -/

/-- C2: `markGroupRead` on the front (and only, hence last) group of
`soloState` followed by `undo()` does not restore the cursor: the advance
at the end of the queue leaves `currentIndex` at 0 (part_002 lines
207-213 only increment when `currentIndex < senderGroups.length - 1`),
but `handleUndo` decrements unconditionally (line 333), leaving the
cursor at -1 instead of its pre-action value 0.  The group list is
unchanged and exactly one mark-as-unread call per message id of the group
is issued, as the claim states; the cursor restoration fails. -/
theorem c2_undo_read_cursor_bug :
    soloState.currentIndex = 0 ∧
    handleUndo (handleMarkAsRead soloState).1
      = ({ senderGroups := [cGroupA], currentIndex := -1, todoGroups := []
           actionHistory := [], showComplete := false, reviewingTodos := false },
         [RemoteCall.markUnread "m1"]) := by
  decide

/-! ## C3 -/

/-- C3: `markEmailAction` with kind todo on the only email of the front
group of `soloState`, then `undo()`.  The todo queue does end up empty,
but (contrary to the claim) the email-scope action left the emptied
group holding its old email list in the main queue (part_002 lines
428-431 call only `advanceToNext`), so the undo splice-back (lines
361-369) appends the email a second time — the restored group holds
`[cEmailA, cEmailA]`, not the email exactly once — and the Complete
transition caused by the group emptying is not reversed (`showComplete`
stays true; the email branch of `handleUndo` never touches it). -/
theorem c3_email_todo_undo_bug :
    (handleUndo (handleEmailAction soloState "m1" .todo).1).1
      = { senderGroups := [{ senderEmail := "alice@example.com", senderName := "Alice",
                             emails := [cEmailA, cEmailA] }]
          currentIndex := 0, todoGroups := [], actionHistory := []
          showComplete := true, reviewingTodos := false } := by
  decide

/-! ## C4 -/

/-- C4: from the fresh fetch of the single email `cEmailA` (one main
group, empty todo queue), `markGroupTodo` on that last main-queue group
reads the render-snapshot todo queue (still empty) inside
`advanceToNext` (part_002 line 209), so it sets Complete even though the
queued update has just put the group into the todo queue: the resulting
state is Complete with a non-empty todo queue and `reviewingTodos`
false, contradicting the claim that Complete is reached only with both
queues empty. -/
theorem c4_complete_with_nonempty_todos_bug :
    (handleTodo (freshState [cEmailA])).1.showComplete = true ∧
    (handleTodo (freshState [cEmailA])).1.todoGroups
      = [{ senderEmail := "alice@example.com", senderName := "Alice",
           emails := [cEmailA] }] ∧
    (handleTodo (freshState [cEmailA])).1.reviewingTodos = false := by
  decide

/-! ## C9 -/

theorem currentGroup_browsing (s : EngineState) (h : s.reviewingTodos = false) :
    s.currentGroup = jsGet s.senderGroups s.currentIndex := by
  unfold EngineState.currentGroup
  rw [h]
  simp

theorem handleTodo_reviewing (s : EngineState) (h : s.reviewingTodos = true) :
    handleTodo s
      = ({ s with todoGroups :=
            if s.todoGroups.length ≤ 1 then s.todoGroups
            else s.todoGroups.drop 1 ++ s.todoGroups.take 1 }, []) := by
  have hcg : s.currentGroup = s.todoGroups.head? := by
    unfold EngineState.currentGroup
    rw [h]
    simp
  unfold handleTodo
  rw [hcg]
  rcases hts : s.todoGroups with _ | ⟨g, ts⟩
  · simp only [List.head?_nil, List.length_nil, Nat.zero_le, if_true]
    rw [← hts]
  · simp [h]

/-- C9: while reviewing todos, `markGroupTodo` only rotates the head of
the todo queue to its tail: the action history (hence everything `undo`
can see), the main queue, the cursor and the flags are unchanged, no
remote call is issued, and a todo queue of at most one group is left
entirely unchanged. -/
theorem c9_reviewing_todo_rotation (s : EngineState) (h : s.reviewingTodos = true) :
    (handleTodo s).2 = [] ∧
    ((handleTodo s).1).actionHistory = s.actionHistory ∧
    ((handleTodo s).1).senderGroups = s.senderGroups ∧
    ((handleTodo s).1).currentIndex = s.currentIndex ∧
    ((handleTodo s).1).reviewingTodos = true ∧
    ((handleTodo s).1).showComplete = s.showComplete ∧
    (s.todoGroups.length ≤ 1 → (handleTodo s).1 = s) ∧
    (∀ g ts, s.todoGroups = g :: ts → ts ≠ [] →
      ((handleTodo s).1).todoGroups = ts ++ [g]) := by
  rw [handleTodo_reviewing s h]
  refine ⟨rfl, rfl, rfl, rfl, h, rfl, ?_, ?_⟩
  · intro hle
    simp [if_pos hle]
  · intro g ts hts hne
    rw [hts]
    have hlen : ¬ (g :: ts).length ≤ 1 := by
      simp only [List.length_cons]
      have : ts.length ≠ 0 := fun h0 => hne (List.length_eq_zero.mp h0)
      omega
    rw [if_neg hlen]
    rfl

/-- A browsing state reviewing nothing, with two groups queued as todos. -/
def reviewState : EngineState :=
  { senderGroups := [], currentIndex := 0, todoGroups := [cGroupA, cGroupB]
    actionHistory := [TriageAction.group .skip cGroupA 0], showComplete := false
    reviewingTodos := true }

/-- C9, witness: rotating the two-element todo queue of `reviewState`. -/
theorem c9_reviewing_todo_rotation_witness :
    reviewState.reviewingTodos = true ∧
    ((handleTodo reviewState).1).todoGroups = [cGroupB, cGroupA] ∧
    ((handleTodo reviewState).1).actionHistory = reviewState.actionHistory :=
  ⟨by decide,
   (c9_reviewing_todo_rotation reviewState (by decide)).2.2.2.2.2.2.2
     cGroupA [cGroupB] (by decide) (by decide),
   (c9_reviewing_todo_rotation reviewState (by decide)).2.1⟩

/-! ## C10 -/

/-- C10: while browsing, an email-scope action (any kind) on the last
remaining email of the front group leaves the main-queue group list
unchanged — the front group, still holding its prior email list, stays at
the cursor — and either only the cursor advances by one or the engine
leaves Browsing (enters todo review or Complete) with the cursor
untouched; the emptied group is never removed from the main queue. -/
theorem c10_email_action_frame (s : EngineState) (g : SenderGroup) (e : ParsedEmail)
    (kind : ActionType)
    (h1 : s.reviewingTodos = false)
    (h2 : s.currentGroup = some g)
    (h3 : g.emails = [e]) :
    ((handleEmailAction s e.id kind).1).senderGroups = s.senderGroups ∧
    jsGet ((handleEmailAction s e.id kind).1).senderGroups s.currentIndex = some g ∧
    ((((handleEmailAction s e.id kind).1).currentIndex = s.currentIndex + 1 ∧
      ((handleEmailAction s e.id kind).1).reviewingTodos = false ∧
      ((handleEmailAction s e.id kind).1).showComplete = s.showComplete) ∨
     (((handleEmailAction s e.id kind).1).currentIndex = s.currentIndex ∧
      (((handleEmailAction s e.id kind).1).reviewingTodos = true ∨
       ((handleEmailAction s e.id kind).1).showComplete = true))) := by
  have hstep : (handleEmailAction s e.id kind).1
      = advanceToNext s
          (if kind == .todo && !s.reviewingTodos then
            { s with
              actionHistory := s.actionHistory ++
                [TriageAction.email kind e (if s.reviewingTodos then -1 else s.currentIndex) g]
              todoGroups := mergeEmailIntoTodos s.todoGroups e }
          else
            { s with
              actionHistory := s.actionHistory ++
                [TriageAction.email kind e (if s.reviewingTodos then -1 else s.currentIndex) g] }) := by
    unfold handleEmailAction
    rw [h2]
    dsimp only
    rw [h3]
    simp only [List.find?_cons, beq_self_eq_true, List.filter_cons, Bool.not_true,
      Bool.false_eq_true, if_false, List.filter_nil, List.isEmpty_nil, if_true, h1]
  have hsg : ((handleEmailAction s e.id kind).1).senderGroups = s.senderGroups := by
    rw [hstep, advanceToNext_senderGroups]
    split <;> rfl
  refine ⟨hsg, ?_, ?_⟩
  · rw [hsg, ← currentGroup_browsing s h1, h2]
  · rw [hstep]
    unfold advanceToNext
    rw [h1]
    simp only [Bool.false_eq_true, if_false]
    by_cases hcur : s.currentIndex < (s.senderGroups.length : Int) - 1
    · left
      rw [if_pos hcur]
      split <;> exact ⟨rfl, rfl, rfl⟩
    · right
      rw [if_neg hcur]
      by_cases htd : s.todoGroups.length > 0
      · rw [if_pos htd]
        split <;> exact ⟨rfl, Or.inl rfl⟩
      · rw [if_neg htd]
        split <;> exact ⟨rfl, Or.inr rfl⟩

/-- C10, witness: skipping the only email of the front group of
`twoGroupState`. -/
theorem c10_email_action_frame_witness :
    twoGroupState.currentGroup = some cGroupA ∧
    ((handleEmailAction twoGroupState cEmailA.id .skip).1).senderGroups
      = twoGroupState.senderGroups :=
  ⟨by decide,
   (c10_email_action_frame twoGroupState cGroupA cEmailA .skip
      (by decide) (by decide) (by decide)).1⟩

/-! ## C8: correctness of `groupEmailsBySender` -/

theorem insertEmail_flatten_perm (acc : List SenderGroup) (e : ParsedEmail) :
    ((insertEmail acc e).map (·.emails)).flatten.Perm
      ((acc.map (·.emails)).flatten ++ [e]) := by
  induction acc with
  | nil => simp [insertEmail]
  | cons g gs ih =>
    by_cases hm : (jsToLower g.senderEmail == jsToLower e.fromEmail) = true
    · simp only [insertEmail, hm, if_true, List.map_cons, List.flatten_cons,
        List.append_assoc]
      exact (@List.perm_append_comm _ [e] _).append_left g.emails
    · simp only [insertEmail, hm, Bool.false_eq_true, if_false, List.map_cons,
        List.flatten_cons, List.append_assoc]
      exact ih.append_left g.emails

theorem foldl_insertEmail_flatten_perm (l : List ParsedEmail) :
    ∀ acc, ((l.foldl insertEmail acc).map (·.emails)).flatten.Perm
      ((acc.map (·.emails)).flatten ++ l) := by
  induction l with
  | nil => intro acc; simp
  | cons e es ih =>
    intro acc
    simp only [List.foldl_cons]
    have h1 := ih (insertEmail acc e)
    have h2 := (insertEmail_flatten_perm acc e).append_right es
    have h3 : ((acc.map (·.emails)).flatten ++ [e]) ++ es
        = (acc.map (·.emails)).flatten ++ (e :: es) := by simp
    exact h1.trans (h3 ▸ h2)

theorem buildGroups_flatten_perm (l : List ParsedEmail) :
    ((buildGroups l).map (·.emails)).flatten.Perm l := by
  have h := foldl_insertEmail_flatten_perm l []
  simpa [buildGroups] using h

theorem insertEmail_coherent (acc : List SenderGroup) (e : ParsedEmail)
    (hacc : ∀ g ∈ acc, ∀ x ∈ g.emails, emailKey x = senderKey g) :
    ∀ g ∈ insertEmail acc e, ∀ x ∈ g.emails, emailKey x = senderKey g := by
  induction acc with
  | nil =>
    intro g hg x hx
    simp only [insertEmail, List.mem_singleton] at hg
    subst hg
    simp only [List.mem_singleton] at hx
    subst hx
    rfl
  | cons t ts ih =>
    intro g hg x hx
    by_cases hm : (jsToLower t.senderEmail == jsToLower e.fromEmail) = true
    · simp only [insertEmail, hm, if_true, List.mem_cons] at hg
      rcases hg with hg | hg
      · subst hg
        rcases List.mem_append.mp hx with hx | hx
        · exact hacc t (List.mem_cons_self t ts) x hx
        · rw [List.mem_singleton] at hx
          subst hx
          show jsToLower x.fromEmail = jsToLower t.senderEmail
          exact (eq_of_beq hm).symm
      · exact hacc g (List.mem_cons_of_mem t hg) x hx
    · simp only [insertEmail, hm, Bool.false_eq_true, if_false, List.mem_cons] at hg
      rcases hg with hg | hg
      · subst hg
        exact hacc g (List.mem_cons_self g ts) x hx
      · exact ih (fun g' hg' => hacc g' (List.mem_cons_of_mem t hg')) g hg x hx

theorem buildGroups_coherent (l : List ParsedEmail) :
    ∀ g ∈ buildGroups l, ∀ x ∈ g.emails, emailKey x = senderKey g := by
  suffices h : ∀ acc, (∀ g ∈ acc, ∀ x ∈ g.emails, emailKey x = senderKey g) →
      ∀ g ∈ l.foldl insertEmail acc, ∀ x ∈ g.emails, emailKey x = senderKey g by
    exact h [] (by simp)
  induction l with
  | nil => intro acc hacc; exact hacc
  | cons e es ih =>
    intro acc hacc
    exact ih (insertEmail acc e) (insertEmail_coherent acc e hacc)

theorem insertEmail_nonempty (acc : List SenderGroup) (e : ParsedEmail)
    (hacc : ∀ g ∈ acc, g.emails ≠ []) :
    ∀ g ∈ insertEmail acc e, g.emails ≠ [] := by
  induction acc with
  | nil =>
    intro g hg
    simp only [insertEmail, List.mem_singleton] at hg
    subst hg
    simp
  | cons t ts ih =>
    intro g hg
    by_cases hm : (jsToLower t.senderEmail == jsToLower e.fromEmail) = true
    · simp only [insertEmail, hm, if_true, List.mem_cons] at hg
      rcases hg with hg | hg
      · subst hg; simp
      · exact hacc g (List.mem_cons_of_mem t hg)
    · simp only [insertEmail, hm, Bool.false_eq_true, if_false, List.mem_cons] at hg
      rcases hg with hg | hg
      · subst hg; exact hacc g (List.mem_cons_self g ts)
      · exact ih (fun g' hg' => hacc g' (List.mem_cons_of_mem t hg')) g hg

theorem buildGroups_nonempty (l : List ParsedEmail) :
    ∀ g ∈ buildGroups l, g.emails ≠ [] := by
  suffices h : ∀ acc, (∀ g ∈ acc, g.emails ≠ []) →
      ∀ g ∈ l.foldl insertEmail acc, g.emails ≠ [] by
    exact h [] (by simp)
  induction l with
  | nil => intro acc hacc; exact hacc
  | cons e es ih =>
    intro acc hacc
    exact ih (insertEmail acc e) (insertEmail_nonempty acc e hacc)

theorem insertEmail_keys (acc : List SenderGroup) (e : ParsedEmail) :
    (insertEmail acc e).map senderKey
      = if acc.any (fun g => jsToLower g.senderEmail == jsToLower e.fromEmail)
        then acc.map senderKey
        else acc.map senderKey ++ [emailKey e] := by
  induction acc with
  | nil => rfl
  | cons t ts ih =>
    by_cases hm : (jsToLower t.senderEmail == jsToLower e.fromEmail) = true
    · simp only [insertEmail, hm, if_true, List.map_cons, List.any_cons, Bool.true_or]
      rfl
    · simp only [insertEmail, hm, Bool.false_eq_true, if_false, List.map_cons,
        List.any_cons, Bool.false_or, ih]
      split <;> rfl

theorem insertEmail_keys_nodup (acc : List SenderGroup) (e : ParsedEmail)
    (h : (acc.map senderKey).Nodup) :
    ((insertEmail acc e).map senderKey).Nodup := by
  rw [insertEmail_keys]
  split
  · exact h
  · rename_i hany
    have hnot : emailKey e ∉ acc.map senderKey := by
      intro hmem
      rcases List.mem_map.mp hmem with ⟨g, hg, hkey⟩
      exact hany (List.any_eq_true.mpr ⟨g, hg, beq_iff_eq.mpr hkey⟩)
    rw [List.nodup_append]
    exact ⟨h, List.nodup_singleton _, by
      intro a ha hb
      rw [List.mem_singleton] at hb
      subst hb
      exact hnot ha⟩

theorem insertEmail_keys_mono (acc : List SenderGroup) (e : ParsedEmail) :
    acc.map senderKey ⊆ (insertEmail acc e).map senderKey := by
  rw [insertEmail_keys]
  split
  · exact fun _ h => h
  · exact fun k hk => List.mem_append.mpr (Or.inl hk)

theorem emailKey_mem_insertEmail_keys (acc : List SenderGroup) (e : ParsedEmail) :
    emailKey e ∈ (insertEmail acc e).map senderKey := by
  rw [insertEmail_keys]
  split
  · rename_i hany
    rw [List.any_eq_true] at hany
    rcases hany with ⟨g, hg, hbeq⟩
    have hkeq : senderKey g = emailKey e := eq_of_beq hbeq
    rw [← hkeq]
    exact List.mem_map_of_mem senderKey hg
  · exact List.mem_append.mpr (Or.inr (List.mem_singleton.mpr rfl))

theorem mem_insertEmail {acc : List SenderGroup} {e : ParsedEmail} {g : SenderGroup}
    (hg : g ∈ insertEmail acc e) :
    (∃ g0 ∈ acc, g.senderEmail = g0.senderEmail ∧ g.senderName = g0.senderName) ∨
    (g = { senderEmail := e.fromEmail, senderName := e.fromName, emails := [e] } ∧
      ∀ g0 ∈ acc, (jsToLower g0.senderEmail == jsToLower e.fromEmail) = false) := by
  induction acc with
  | nil =>
    simp only [insertEmail, List.mem_singleton] at hg
    exact .inr ⟨hg, by simp⟩
  | cons t ts ih =>
    by_cases hm : (jsToLower t.senderEmail == jsToLower e.fromEmail) = true
    · simp only [insertEmail, hm, if_true, List.mem_cons] at hg
      rcases hg with hg | hg
      · exact .inl ⟨t, List.mem_cons_self t ts, by subst hg; exact rfl, by subst hg; exact rfl⟩
      · exact .inl ⟨g, List.mem_cons_of_mem t hg, rfl, rfl⟩
    · simp only [insertEmail, hm, Bool.false_eq_true, if_false, List.mem_cons] at hg
      rcases hg with hg | hg
      · exact .inl ⟨t, List.mem_cons_self t ts, by subst hg; exact rfl, by subst hg; exact rfl⟩
      · rcases ih hg with ⟨g0, hg0, h1, h2⟩ | ⟨hnew, hnone⟩
        · exact .inl ⟨g0, List.mem_cons_of_mem t hg0, h1, h2⟩
        · refine .inr ⟨hnew, ?_⟩
          intro g0 h0
          rcases List.mem_cons.mp h0 with h0 | h0
          · subst h0; exact Bool.not_eq_true _ ▸ (by simpa using hm)
          · exact hnone g0 h0

theorem buildGroups_keys_nodup (l : List ParsedEmail) :
    ((buildGroups l).map senderKey).Nodup := by
  suffices h : ∀ acc, (acc.map senderKey).Nodup →
      ((l.foldl insertEmail acc).map senderKey).Nodup by
    exact h [] (by simp)
  induction l with
  | nil => intro acc hacc; exact hacc
  | cons e es ih =>
    intro acc hacc
    exact ih (insertEmail acc e) (insertEmail_keys_nodup acc e hacc)

theorem foldl_firstSeen (l : List ParsedEmail) :
    ∀ acc g, g ∈ l.foldl insertEmail acc →
      (∃ g0 ∈ acc, g.senderEmail = g0.senderEmail ∧ g.senderName = g0.senderName) ∨
      (∃ e, l.find? (fun x => jsToLower x.fromEmail == jsToLower g.senderEmail) = some e ∧
        g.senderEmail = e.fromEmail ∧ g.senderName = e.fromName ∧
        ∀ g0 ∈ acc, senderKey g0 ≠ senderKey g) := by
  induction l with
  | nil =>
    intro acc g hg
    exact .inl ⟨g, hg, rfl, rfl⟩
  | cons e es ih =>
    intro acc g hg
    rcases ih (insertEmail acc e) g hg with ⟨g0, hg0, he1, he2⟩ | ⟨e', hfind, hf1, hf2, hnot⟩
    · rcases mem_insertEmail hg0 with ⟨g1, hg1, hh1, hh2⟩ | ⟨hnew, hnone⟩
      · exact .inl ⟨g1, hg1, he1.trans hh1, he2.trans hh2⟩
      · right
        have hg0mail : g0.senderEmail = e.fromEmail := by rw [hnew]
        have hg0name : g0.senderName = e.fromName := by rw [hnew]
        refine ⟨e, ?_, he1.trans hg0mail, he2.trans hg0name, ?_⟩
        · apply List.find?_cons_of_pos
          show (jsToLower e.fromEmail == jsToLower g.senderEmail) = true
          rw [he1.trans hg0mail]
          exact beq_self_eq_true _
        · intro g1 h1 hk
          have hb := hnone g1 h1
          rw [show jsToLower g1.senderEmail = jsToLower e.fromEmail from by
              have : senderKey g1 = senderKey g := hk
              rw [show senderKey g = jsToLower e.fromEmail from by
                  show jsToLower g.senderEmail = jsToLower e.fromEmail
                  rw [he1.trans hg0mail]] at this
              exact this] at hb
          simp at hb
    · right
      have hkeymem := emailKey_mem_insertEmail_keys acc e
      have hne : (jsToLower e.fromEmail == jsToLower g.senderEmail) = false := by
        apply beq_eq_false_iff_ne.mpr
        intro hEq
        rcases List.mem_map.mp hkeymem with ⟨g1, hg1, hkey1⟩
        exact hnot g1 hg1 (by
          show jsToLower g1.senderEmail = jsToLower g.senderEmail
          have h1 : jsToLower g1.senderEmail = jsToLower e.fromEmail := hkey1
          rw [h1, hEq])
      refine ⟨e', ?_, hf1, hf2, ?_⟩
      · rw [List.find?_cons_of_neg _ (by simp [hne]), hfind]
      · intro g0 h0 hk
        have : senderKey g0 ∈ (insertEmail acc e).map senderKey :=
          insertEmail_keys_mono acc e (List.mem_map_of_mem senderKey h0)
        rcases List.mem_map.mp this with ⟨g1, hg1, hkey1⟩
        exact hnot g1 hg1 (hkey1.trans hk)

theorem buildGroups_firstSeen (l : List ParsedEmail) :
    ∀ g ∈ buildGroups l,
      ∃ e, l.find? (fun x => jsToLower x.fromEmail == jsToLower g.senderEmail) = some e ∧
        g.senderEmail = e.fromEmail ∧ g.senderName = e.fromName := by
  intro g hg
  rcases foldl_firstSeen l [] g hg with ⟨g0, hg0, _⟩ | ⟨e, hfind, h1, h2, _⟩
  · exact absurd hg0 (List.not_mem_nil g0)
  · exact ⟨e, hfind, h1, h2⟩

theorem flatten_map_sorted_perm (gs : List SenderGroup) :
    ((gs.map (fun g => { g with emails := sortEmailsDesc g.emails })).map
        (·.emails)).flatten.Perm ((gs.map (·.emails)).flatten) := by
  induction gs with
  | nil => simp
  | cons g gs ih =>
    simp only [List.map_cons, List.flatten_cons]
    exact (List.perm_insertionSort dateGe g.emails).append ih

theorem mem_groupEmailsBySender {l : List ParsedEmail} {g : SenderGroup}
    (hg : g ∈ groupEmailsBySender l) :
    ∃ g0 ∈ buildGroups l, g = { g0 with emails := sortEmailsDesc g0.emails } := by
  unfold groupEmailsBySender at hg
  rw [List.mem_insertionSort] at hg
  rcases List.mem_map.mp hg with ⟨g0, hg0, hEq⟩
  exact ⟨g0, hg0, hEq.symm⟩

/-- C8: `groupEmailsBySender` partitions its input into groups keyed by
the lower-cased sender address (every email sits in the group of its own
key, the keys of distinct groups differ, and the concatenation of all
groups is a permutation of the input); each group's display name and
stored address come from the first-seen email of that sender; each group
is non-empty and sorted by send time descending; the groups themselves
are sorted by their most recent email's time descending; and the function
is deterministic (equal inputs give equal outputs). -/
theorem c8_groupEmailsBySender_spec (l : List ParsedEmail) :
    (∀ g ∈ groupEmailsBySender l, ∀ e ∈ g.emails, emailKey e = senderKey g) ∧
    ((groupEmailsBySender l).map senderKey).Nodup ∧
    ((groupEmailsBySender l).map (·.emails)).flatten.Perm l ∧
    (∀ g ∈ groupEmailsBySender l, g.emails ≠ [] ∧ List.Pairwise dateGe g.emails) ∧
    List.Pairwise groupGe (groupEmailsBySender l) ∧
    (∀ g ∈ groupEmailsBySender l,
      ∃ e, l.find? (fun x => jsToLower x.fromEmail == jsToLower g.senderEmail) = some e ∧
        g.senderEmail = e.fromEmail ∧ g.senderName = e.fromName) ∧
    (∀ l2, l = l2 → groupEmailsBySender l = groupEmailsBySender l2) := by
  refine ⟨?_, ?_, ?_, ?_, ?_, ?_, fun l2 h => by rw [h]⟩
  · intro g hg e he
    rcases mem_groupEmailsBySender hg with ⟨g0, hg0, rfl⟩
    have he0 : e ∈ g0.emails := by
      simpa [sortEmailsDesc, List.mem_insertionSort] using he
    exact buildGroups_coherent l g0 hg0 e he0
  · have hperm : (groupEmailsBySender l).Perm
        ((buildGroups l).map (fun g => { g with emails := sortEmailsDesc g.emails })) :=
      List.perm_insertionSort groupGe _
    have hmapeq : (((buildGroups l).map
          (fun g => { g with emails := sortEmailsDesc g.emails })).map senderKey)
        = (buildGroups l).map senderKey := by
      rw [List.map_map]
      rfl
    rw [(hperm.map senderKey).nodup_iff, hmapeq]
    exact buildGroups_keys_nodup l
  · have hout : (groupEmailsBySender l).Perm
        ((buildGroups l).map (fun g => { g with emails := sortEmailsDesc g.emails })) :=
      List.perm_insertionSort groupGe _
    exact ((hout.map (·.emails)).flatten.trans (flatten_map_sorted_perm _)).trans
      (buildGroups_flatten_perm l)
  · intro g hg
    rcases mem_groupEmailsBySender hg with ⟨g0, hg0, rfl⟩
    constructor
    · intro hnil
      have hnil2 : List.insertionSort dateGe g0.emails = [] := hnil
      have hlen := (List.perm_insertionSort dateGe g0.emails).length_eq
      rw [hnil2] at hlen
      exact buildGroups_nonempty l g0 hg0 (List.length_eq_zero.mp hlen.symm)
    · exact List.sorted_insertionSort dateGe g0.emails
  · exact List.sorted_insertionSort groupGe _
  · intro g hg
    rcases mem_groupEmailsBySender hg with ⟨g0, hg0, rfl⟩
    exact buildGroups_firstSeen l g0 hg0

/-- Three concrete emails: two from alice (mixed case), one from bob. -/
def cEmailC : ParsedEmail := mkEmail "m3" "Bob" "bob@example.com" 5

/-- A mixed-case alice email, newest of all. -/
def cEmailD : ParsedEmail := mkEmail "m4" "Alice M." "Alice@Example.com" 9

/-- The input list for the C8 witness. -/
def c8Input : List ParsedEmail := [cEmailA, cEmailC, cEmailD]

/-- The alice group produced by grouping `c8Input`: keyed on the
first-seen spelling, emails sorted descending. -/
def c8AliceGroup : SenderGroup :=
  { senderEmail := "alice@example.com", senderName := "Alice"
    emails := [cEmailD, cEmailA] }

/-- C8, witness: grouping the three-email input and evaluating the
partition-coherence and sortedness conjuncts at the alice group. -/
theorem c8_groupEmailsBySender_spec_witness :
    c8AliceGroup ∈ groupEmailsBySender c8Input ∧
    emailKey cEmailD = senderKey c8AliceGroup ∧
    (c8AliceGroup.emails ≠ [] ∧ List.Pairwise dateGe c8AliceGroup.emails) :=
  ⟨by decide,
   (c8_groupEmailsBySender_spec c8Input).1 c8AliceGroup (by decide) cEmailD (by decide),
   (c8_groupEmailsBySender_spec c8Input).2.2.2.1 c8AliceGroup (by decide)⟩

/-! ## C5: the `parallelMap` worker pool (src/services/gmail.ts lines 142-168)

`parallelMap(items, fn, concurrency)` starts `Math.min(concurrency,
items.length)` workers.  Each worker loops: read and post-increment the
shared cursor `nextIndex` (a synchronous step of the single-threaded
event loop, hence atomic), synchronously start `fn` on that item, and
await it.  A worker whose awaited call rejects propagates the exception
out of its loop and stops running; the other workers keep claiming the
remaining indices.  `markMultipleAsRead` and `markMultipleAsUnread`
(lines 305-312) call `parallelMap` over the message-id list with
concurrency 10 and `fn` the single-item `markAsRead` / `markAsUnread`.

The embedding is a small-step scheduler over worker statuses; a schedule
chooses which worker runs at each step, `fails i = true` means the call
on item `i` rejects.  Claiming index `i` is the same synchronous step
that issues the single-item call for `items[i]`, so the indices below
`nextIndex` are exactly the attempted calls, each claimed once. -/

namespace Pool

/-- Status of one `parallelMap` worker. -/
inductive WStatus where
  | idle
  | awaiting (i : Nat)
  | dead
  | done
deriving DecidableEq, Repr

/-- Pool state: the shared `nextIndex` cursor and the worker array. -/
structure PoolState where
  nextIndex : Nat
  workers : List WStatus
deriving DecidableEq, Repr

/-- The pool size of the batched label mutations (source line 306/311). -/
def markMultipleConcurrency : Nat := 10

/-- `Array(Math.min(concurrency, items.length)).fill(null).map(() => worker())`. -/
def initPool (concurrency n : Nat) : PoolState :=
  { nextIndex := 0, workers := List.replicate (min concurrency n) .idle }

/-- One scheduler step: run worker `w`.  An idle worker either claims the
next index (issuing the call for it) or, when the index space is
exhausted, finishes; an awaiting worker's call settles — rejection kills
the worker, otherwise it loops back to idle. -/
def stepAt (n : Nat) (fails : Nat → Bool) (s : PoolState) (w : Nat) : PoolState :=
  match s.workers[w]? with
  | some .idle =>
    if s.nextIndex < n then
      { nextIndex := s.nextIndex + 1, workers := s.workers.set w (.awaiting s.nextIndex) }
    else
      { s with workers := s.workers.set w .done }
  | some (.awaiting i) =>
    { s with workers := s.workers.set w (if fails i then .dead else .idle) }
  | _ => s

/-- Run a schedule from the batched-mutation pool. -/
def runPool (n : Nat) (fails : Nat → Bool) (sched : List Nat) : PoolState :=
  sched.foldl (stepAt n fails) (initPool markMultipleConcurrency n)

/-- Worker-status tests. -/
def isAwaiting : WStatus → Bool
  | .awaiting _ => true
  | _ => false

/-- Dead test. -/
def isDead : WStatus → Bool
  | .dead => true
  | _ => false

/-- Done test. -/
def isDone : WStatus → Bool
  | .done => true
  | _ => false

/-- Number of in-flight calls. -/
def inFlight (s : PoolState) : Nat := s.workers.countP isAwaiting

/-- Awaiting a call that is going to reject. -/
def awaitFails (fails : Nat → Bool) : WStatus → Bool
  | .awaiting i => fails i
  | _ => false

/-- Number of failing indices strictly below `k`. -/
def failBelow (fails : Nat → Bool) (k : Nat) : Nat := (List.range k).countP fails

/-- Every worker is dead or done: no further step changes anything. -/
def quiescent (s : PoolState) : Bool := s.workers.all (fun w => isDead w || isDone w)

/-- The single-item calls a read batch over `ids` has issued so far: one
`markAsRead` per claimed index. -/
def attemptedReadCalls (ids : List String) (s : PoolState) : List RemoteCall :=
  (ids.take s.nextIndex).map RemoteCall.markRead

/-- Invariant of the batched-mutation pool. -/
structure PoolInv (n : Nat) (fails : Nat → Bool) (s : PoolState) : Prop where
  card_eq : s.workers.length = min markMultipleConcurrency n
  next_le : s.nextIndex ≤ n
  dead_bound : s.workers.countP isDead + s.workers.countP (awaitFails fails)
      ≤ failBelow fails s.nextIndex
  done_next : WStatus.done ∈ s.workers → n ≤ s.nextIndex

theorem countP_set_eq (p : WStatus → Bool) (l : List WStatus) (i : Nat) (a : WStatus)
    (h : i < l.length) :
    (l.set i a).countP p + (if p l[i] then 1 else 0)
      = l.countP p + (if p a then 1 else 0) := by
  induction l generalizing i with
  | nil => simp at h
  | cons x xs ih =>
    cases i with
    | zero =>
      by_cases hx : p x <;> by_cases ha : p a <;>
        simp [List.countP_cons, hx, ha] <;> omega
    | succ j =>
      have hj : j < xs.length := by simpa using h
      have := ih j hj
      by_cases hx : p x <;>
        simp only [List.set_cons_succ, List.countP_cons, List.getElem_cons_succ, hx] <;>
        omega

theorem failBelow_succ (fails : Nat → Bool) (k : Nat) :
    failBelow fails (k + 1) = failBelow fails k + (if fails k then 1 else 0) := by
  unfold failBelow
  rw [List.range_succ, List.countP_append]
  simp [List.countP_cons]

theorem poolInv_init (n : Nat) (fails : Nat → Bool) :
    PoolInv n fails (initPool markMultipleConcurrency n) := by
  refine ⟨by simp [initPool], Nat.zero_le n, ?_, ?_⟩
  · simp [initPool, failBelow, List.countP_replicate, isDead, awaitFails]
  · intro hmem
    rcases List.eq_of_mem_replicate hmem

theorem poolInv_step (n : Nat) (fails : Nat → Bool) (s : PoolState) (w : Nat)
    (h : PoolInv n fails s) : PoolInv n fails (stepAt n fails s w) := by
  unfold stepAt
  cases hw : s.workers[w]? with
  | none => exact h
  | some st =>
    have hwlt : w < s.workers.length := (List.getElem?_eq_some.mp hw).1
    have hwget : s.workers[w] = st := (List.getElem?_eq_some.mp hw).2
    cases st with
    | idle =>
      dsimp only
      by_cases hlt : s.nextIndex < n
      · rw [if_pos hlt]
        refine ⟨?_, hlt, ?_, ?_⟩
        · rw [List.length_set]; exact h.card_eq
        · have hd := countP_set_eq isDead s.workers w (.awaiting s.nextIndex) hwlt
          have ha := countP_set_eq (awaitFails fails) s.workers w (.awaiting s.nextIndex) hwlt
          rw [hwget] at hd ha
          simp only [isDead, awaitFails, if_false] at hd ha
          have hb := h.dead_bound
          rw [failBelow_succ]
          by_cases hf : fails s.nextIndex <;> simp [hf] at ha ⊢ <;> omega
        · intro hmem
          rcases List.mem_or_eq_of_mem_set hmem with hmem | hEq
          · exact Nat.le_succ_of_le (h.done_next hmem)
          · cases hEq
      · rw [if_neg hlt]
        refine ⟨?_, h.next_le, ?_, fun _ => Nat.le_of_not_lt hlt⟩
        · rw [List.length_set]; exact h.card_eq
        · have hd := countP_set_eq isDead s.workers w .done hwlt
          have ha := countP_set_eq (awaitFails fails) s.workers w .done hwlt
          rw [hwget] at hd ha
          simp only [isDead, awaitFails, if_false] at hd ha
          have hb := h.dead_bound
          dsimp only
          omega
    | awaiting i =>
      dsimp only
      refine ⟨?_, h.next_le, ?_, ?_⟩
      · rw [List.length_set]; exact h.card_eq
      · have hd := countP_set_eq isDead s.workers w (if fails i then .dead else .idle) hwlt
        have ha := countP_set_eq (awaitFails fails) s.workers w
          (if fails i then .dead else .idle) hwlt
        rw [hwget] at hd ha
        have hb := h.dead_bound
        dsimp only
        by_cases hf : fails i <;>
          simp only [isDead, awaitFails, hf, if_true, if_false, Bool.false_eq_true] at hd ha ⊢ <;>
          omega
      · intro hmem
        rcases List.mem_or_eq_of_mem_set hmem with hmem | hEq
        · exact h.done_next hmem
        · by_cases hf : fails i <;> simp [hf] at hEq
    | dead => exact h
    | done => exact h

theorem poolInv_run (n : Nat) (fails : Nat → Bool) (sched : List Nat) :
    PoolInv n fails (runPool n fails sched) := by
  unfold runPool
  induction sched using List.reverseRecOn with
  | nil => exact poolInv_init n fails
  | append_singleton xs x ih =>
    rw [List.foldl_append, List.foldl_cons, List.foldl_nil]
    exact poolInv_step n fails _ x ih

theorem countP_range_le_one (fails : Nat → Bool)
    (h : ∀ i j, fails i = true → fails j = true → i = j) (k : Nat) :
    (List.range k).countP fails ≤ 1 := by
  induction k with
  | zero => simp
  | succ m ih =>
    rw [List.range_succ, List.countP_append]
    by_cases hm : fails m = true
    · have h0 : (List.range m).countP fails = 0 := by
        rw [List.countP_eq_zero]
        intro j hj hfj
        rw [List.mem_range] at hj
        exact absurd (h j m hfj hm) (Nat.ne_of_lt hj)
      simp [h0, hm, List.countP_cons]
    · have h1 : ([m] : List Nat).countP fails = 0 := by
        simp [List.countP_cons, hm]
      omega

end Pool

/-- C5: for every id list, failure pattern and schedule of the batched
mark-as-read pool (`markMultipleAsRead` = `parallelMap` of the
single-item `markAsRead` with concurrency 10; `markMultipleAsUnread` is
identical with `markAsUnread`): the pool has `min 10 n` workers and at
most 10 calls in flight; at most one single-item call is issued per id
(indices are claimed by a post-incremented shared cursor, so the
attempted calls are exactly the ids below `nextIndex`); when no call
fails, a completed (quiescent) run has issued the single-item call for
every id; and the items are independent — with at most one failing item,
every other id in the list is still attempted. -/
theorem c5_batched_mutation_pool (ids : List String) (fails : Nat → Bool)
    (sched : List Nat) :
    ((Pool.runPool ids.length fails sched).workers.length
        = min Pool.markMultipleConcurrency ids.length ∧
      Pool.inFlight (Pool.runPool ids.length fails sched) ≤ Pool.markMultipleConcurrency) ∧
    (Pool.runPool ids.length fails sched).nextIndex ≤ ids.length ∧
    ((∀ i, fails i = false) →
      Pool.quiescent (Pool.runPool ids.length fails sched) = true →
      Pool.attemptedReadCalls ids (Pool.runPool ids.length fails sched)
        = ids.map RemoteCall.markRead) ∧
    ((∀ i j, fails i = true → fails j = true → i = j) →
      Pool.quiescent (Pool.runPool ids.length fails sched) = true →
      ∀ i, i < ids.length → fails i = false →
        i < (Pool.runPool ids.length fails sched).nextIndex) := by
  have inv := Pool.poolInv_run ids.length fails sched
  have hmain : (∀ i j, fails i = true → fails j = true → i = j) →
      Pool.quiescent (Pool.runPool ids.length fails sched) = true →
      ∀ i, i < ids.length → fails i = false →
        i < (Pool.runPool ids.length fails sched).nextIndex := by
    intro hone hq i hi hfi
    set s := Pool.runPool ids.length fails sched with hs
    by_cases hdone : Pool.WStatus.done ∈ s.workers
    · exact lt_of_lt_of_le hi (inv.done_next hdone)
    · have halldead : ∀ x ∈ s.workers, Pool.isDead x = true := by
        intro x hx
        have hx2 := List.all_eq_true.mp hq x hx
        have hx3 : Pool.isDead x = true ∨ Pool.isDone x = true := by
          simpa using hx2
        rcases hx3 with hd | hdn
        · exact hd
        · exfalso
          have hxdone : x = Pool.WStatus.done := by
            cases x <;> simp [Pool.isDone] at hdn <;> rfl
          exact hdone (hxdone ▸ hx)
      have hdeadcount : s.workers.countP Pool.isDead = s.workers.length :=
        List.countP_eq_length.mpr halldead
      have hfb : Pool.failBelow fails s.nextIndex ≤ 1 :=
        Pool.countP_range_le_one fails hone s.nextIndex
      have hb := inv.dead_bound
      have hcard := inv.card_eq
      have hlen1 : s.workers.length ≤ 1 := by omega
      have hn1 : ids.length = 1 := by
        have hpos : 0 < ids.length := Nat.lt_of_le_of_lt (Nat.zero_le i) hi
        rw [hcard] at hlen1
        rw [Nat.min_def] at hlen1
        unfold Pool.markMultipleConcurrency at hlen1
        split at hlen1 <;> omega
      have hone2 : 1 ≤ Pool.failBelow fails s.nextIndex := by
        have hmin : min Pool.markMultipleConcurrency 1 = 1 := by decide
        rw [hcard, hn1, hmin] at hdeadcount
        omega
      have hex : ∃ j ∈ List.range s.nextIndex, fails j = true := by
        apply List.countP_pos_iff.mp
        unfold Pool.failBelow at hone2
        omega
      rcases hex with ⟨j, hj, hfj⟩
      rw [List.mem_range] at hj
      have hjlt : j < ids.length := Nat.lt_of_lt_of_le hj inv.next_le
      have hij : i = j := by omega
      rw [hij, hfj] at hfi
      cases hfi
  refine ⟨⟨inv.card_eq, ?_⟩, inv.next_le, ?_, hmain⟩
  · calc Pool.inFlight (Pool.runPool ids.length fails sched)
        ≤ (Pool.runPool ids.length fails sched).workers.length :=
          List.countP_le_length _
      _ = min Pool.markMultipleConcurrency ids.length := inv.card_eq
      _ ≤ Pool.markMultipleConcurrency := Nat.min_le_left _ _
  · intro hnone hq
    have hall : ∀ i, i < ids.length →
        i < (Pool.runPool ids.length fails sched).nextIndex := by
      intro i hi
      exact hmain (fun i j hi2 _ => by rw [hnone i] at hi2; cases hi2) hq i hi (hnone i)
    have hfull : (Pool.runPool ids.length fails sched).nextIndex = ids.length := by
      rcases Nat.eq_zero_or_pos ids.length with h0 | hpos
      · have := inv.next_le
        omega
      · have := hall (ids.length - 1) (by omega)
        have := inv.next_le
        omega
    unfold Pool.attemptedReadCalls
    rw [hfull, List.take_length]

/-- Failure pattern for the C5 witness: only item 0 rejects. -/
def c5fails : Nat → Bool := fun i => i == 0

/-- Schedule for the C5 witness: worker 0 claims item 0, worker 1 claims
item 1, item 0 rejects (killing worker 0), item 1 succeeds, worker 1
finds the cursor exhausted and finishes. -/
def c5sched : List Nat := [0, 1, 0, 1, 1]

/-- C5, witness: on the two-id batch with item 0 failing, the schedule
ends quiescent and item 1 was still attempted. -/
theorem c5_batched_mutation_pool_witness :
    Pool.quiescent (Pool.runPool (["a", "b"] : List String).length c5fails c5sched) = true ∧
    1 < (Pool.runPool (["a", "b"] : List String).length c5fails c5sched).nextIndex :=
  ⟨by decide,
   (c5_batched_mutation_pool ["a", "b"] c5fails c5sched).2.2.2
     (fun i j hi hj => by
       have hi2 : i = 0 := by simpa [c5fails] using hi
       have hj2 : j = 0 := by simpa [c5fails] using hj
       rw [hi2, hj2])
     (by decide) 1 (by decide) (by decide)⟩

/-! ## C7: `fetchMessage` retry and backoff (src/services/gmail.ts lines 104-133) -/

/-- Outcome of one HTTP attempt of the single-message detail fetch: a
response carrying a status code and (for successful responses) the parsed
body, or a thrown network error (the `catch` branch).  The body type is
abstract — `fetchMessage` passes it through unchanged. -/
inductive FetchOutcome (α : Type) where
  | response (status : Nat) (body : α)
  | networkError

/-- `fetchMessage` as a function of the per-attempt outcome (`attempt a`
is the outcome of the HTTP request made with `retryCount = a`) and the
sampled jitter (`Math.random() * 500` of each attempt, in milliseconds).
Returns the result (`null` = `none`) and the list of backoff delays slept
before each retry.  A 429 retries with delay
`2 ^ retryCount * 500 + jitter` while `retryCount < 3`; exhausting the
retries, any other non-success status, and a network error all yield
`none`. -/
def fetchMessage (attempt : Nat → FetchOutcome α) (jitter : Nat → Nat)
    (retryCount : Nat) : Option α × List Nat :=
  match attempt retryCount with
  | .networkError => (none, [])
  | .response status body =>
    if status = 429 then
      if h : retryCount < 3 then
        let rest := fetchMessage attempt jitter (retryCount + 1)
        (rest.1, (2 ^ retryCount * 500 + jitter retryCount) :: rest.2)
      else (none, [])
    else if 200 ≤ status ∧ status < 300 then (some body, [])
    else (none, [])
termination_by 3 - retryCount
decreasing_by omega

theorem fetchMessage_runs {α : Type} (attempt : Nat → FetchOutcome α) (jitter : Nat → Nat) :
    ∀ k rc, rc + k ≤ 3 →
      (∀ a, rc ≤ a → a < rc + k → ∃ b, attempt a = .response 429 b) →
      ∀ status body, attempt (rc + k) = .response status body → status ≠ 429 →
      fetchMessage attempt jitter rc
        = ((if 200 ≤ status ∧ status < 300 then some body else none),
           (List.range k).map (fun t => 2 ^ (rc + t) * 500 + jitter (rc + t))) := by
  intro k
  induction k with
  | zero =>
    intro rc hle h429 status body hdec hne
    have hdec2 : attempt rc = .response status body := by simpa using hdec
    rw [fetchMessage, hdec2]
    dsimp only
    rw [if_neg hne]
    simp only [List.range_zero, List.map_nil]
    split <;> rfl
  | succ k ih =>
    intro rc hle h429 status body hdec hne
    obtain ⟨b0, hb0⟩ := h429 rc (Nat.le_refl rc) (by omega)
    rw [fetchMessage, hb0]
    dsimp only
    rw [if_pos rfl, dif_pos (by omega : rc < 3)]
    have hrec := ih (rc + 1) (by omega)
      (fun a ha1 ha2 => h429 a (by omega) (by omega))
      status body (by rw [show rc + 1 + k = rc + (k + 1) from by omega]; exact hdec) hne
    rw [hrec]
    simp only [List.range_succ_eq_map, List.map_cons, List.map_map]
    refine congrArg _ ?_
    simp only [Nat.add_zero, List.cons.injEq, true_and]
    apply List.map_congr_left
    intro t _
    simp only [Function.comp_apply]
    have harith : rc + 1 + t = rc + (t + 1) := by omega
    rw [harith]

theorem fetchMessage_exhaust {α : Type} (attempt : Nat → FetchOutcome α)
    (jitter : Nat → Nat)
    (h : ∀ a, a ≤ 3 → ∃ b, attempt a = FetchOutcome.response 429 b) :
    fetchMessage attempt jitter 0
      = (none, [500 + jitter 0, 1000 + jitter 1, 2000 + jitter 2]) := by
  obtain ⟨b0, h0⟩ := h 0 (by omega)
  obtain ⟨b1, h1⟩ := h 1 (by omega)
  obtain ⟨b2, h2⟩ := h 2 (by omega)
  obtain ⟨b3, h3⟩ := h 3 (by omega)
  rw [fetchMessage, h0]
  dsimp only
  rw [if_pos rfl, dif_pos (by omega : (0 : Nat) < 3)]
  rw [fetchMessage, h1]
  dsimp only
  rw [if_pos rfl, dif_pos (by omega : (1 : Nat) < 3)]
  rw [fetchMessage, h2]
  dsimp only
  rw [if_pos rfl, dif_pos (by omega : (2 : Nat) < 3)]
  rw [fetchMessage, h3]
  dsimp only
  rw [if_pos rfl, dif_neg (by omega : ¬ (3 : Nat) < 3)]
  norm_num

theorem fetchMessage_retries_le {α : Type} (attempt : Nat → FetchOutcome α)
    (jitter : Nat → Nat) :
    ∀ fuel rc, 3 - rc ≤ fuel → (fetchMessage attempt jitter rc).2.length ≤ 3 - rc := by
  intro fuel
  induction fuel with
  | zero =>
    intro rc h
    rw [fetchMessage]
    cases attempt rc with
    | networkError => simp
    | response status body =>
      dsimp only
      by_cases h429 : status = 429
      · rw [if_pos h429, dif_neg (by omega : ¬ rc < 3)]
        simp
      · rw [if_neg h429]
        split <;> simp
  | succ n ih =>
    intro rc h
    rw [fetchMessage]
    cases attempt rc with
    | networkError => simp
    | response status body =>
      dsimp only
      by_cases h429 : status = 429
      · by_cases hlt : rc < 3
        · rw [if_pos h429, dif_pos hlt]
          have := ih (rc + 1) (by omega)
          simp only [List.length_cons]
          omega
        · rw [if_pos h429, dif_neg hlt]
          simp
      · rw [if_neg h429]
        split <;> simp

theorem fetchMessage_delay_shape {α : Type} (attempt : Nat → FetchOutcome α)
    (jitter : Nat → Nat) :
    ∀ fuel rc t d, 3 - rc ≤ fuel →
      ((fetchMessage attempt jitter rc).2)[t]? = some d →
      d = 2 ^ (rc + t) * 500 + jitter (rc + t) := by
  intro fuel
  induction fuel with
  | zero =>
    intro rc t d h hget
    rw [fetchMessage] at hget
    cases hat : attempt rc with
    | networkError => rw [hat] at hget; simp at hget
    | response status body =>
      rw [hat] at hget
      dsimp only at hget
      by_cases h429 : status = 429
      · rw [if_pos h429, dif_neg (by omega : ¬ rc < 3)] at hget
        simp at hget
      · rw [if_neg h429] at hget
        split at hget <;> simp at hget
  | succ n ih =>
    intro rc t d h hget
    rw [fetchMessage] at hget
    cases hat : attempt rc with
    | networkError => rw [hat] at hget; simp at hget
    | response status body =>
      rw [hat] at hget
      dsimp only at hget
      by_cases h429 : status = 429
      · by_cases hlt : rc < 3
        · rw [if_pos h429, dif_pos hlt] at hget
          cases t with
          | zero =>
            simp only [List.getElem?_cons_zero, Option.some.injEq] at hget
            rw [← hget]
            simp
          | succ t2 =>
            simp only [List.getElem?_cons_succ] at hget
            have := ih (rc + 1) t2 d (by omega) hget
            rw [this]
            have harith : rc + 1 + t2 = rc + (t2 + 1) := by omega
            rw [harith]
        · rw [if_pos h429, dif_neg hlt] at hget
          simp at hget
      · rw [if_neg h429] at hget
        split at hget <;> simp at hget

/-- C7: the single-message detail fetch retries a 429 with delay
`2 ^ attempt * 500` milliseconds plus the sampled jitter (below 500ms),
at most 3 retries; after `k ≤ 3` leading 429s a decisive response yields
the body when it is a success status and `none` otherwise (so any other
non-success response drops the message); four consecutive 429s exhaust
the retries and yield `none` — a dropped message, not an error; and every
delay ever slept equals `2 ^ attempt * 500 + jitter` and so lies below
`2 ^ attempt * 500 + 500`. -/
theorem c7_fetch_retry_spec {α : Type} (attempt : Nat → FetchOutcome α)
    (jitter : Nat → Nat) (hj : ∀ a, jitter a < 500) :
    (∀ k status body, k ≤ 3 →
      (∀ a, a < k → ∃ b, attempt a = .response 429 b) →
      attempt k = .response status body → status ≠ 429 →
      fetchMessage attempt jitter 0
        = ((if 200 ≤ status ∧ status < 300 then some body else none),
           (List.range k).map (fun t => 2 ^ t * 500 + jitter t))) ∧
    ((∀ a, a ≤ 3 → ∃ b, attempt a = .response 429 b) →
      fetchMessage attempt jitter 0
        = (none, [500 + jitter 0, 1000 + jitter 1, 2000 + jitter 2])) ∧
    (fetchMessage attempt jitter 0).2.length ≤ 3 ∧
    (∀ t d, ((fetchMessage attempt jitter 0).2)[t]? = some d →
      d = 2 ^ t * 500 + jitter t ∧ d < 2 ^ t * 500 + 500) := by
  refine ⟨?_, fetchMessage_exhaust attempt jitter, ?_, ?_⟩
  · intro k status body hk h429 hdec hne
    have := fetchMessage_runs attempt jitter k 0 (by omega)
      (fun a _ ha2 => h429 a (by omega)) status body (by simpa using hdec) hne
    simpa using this
  · simpa using fetchMessage_retries_le attempt jitter 3 0 (by omega)
  · intro t d hget
    have hshape := fetchMessage_delay_shape attempt jitter 3 0 t d (by omega) (by simpa using hget)
    simp only [Nat.zero_add] at hshape
    exact ⟨hshape, by have := hj t; omega⟩

/-- Attempt pattern for the C7 witness: the first request is
rate-limited, the retry succeeds with body "msg". -/
def c7attempt : Nat → FetchOutcome String := fun a =>
  if a = 0 then .response 429 "rate" else .response 200 "msg"

/-- Constant 250ms jitter for the C7 witness. -/
def c7jitter : Nat → Nat := fun _ => 250

/-- C7, witness: one 429 then success — the message is returned after a
single backoff delay of 500 + 250 ms. -/
theorem c7_fetch_retry_spec_witness :
    fetchMessage c7attempt c7jitter 0 = (some "msg", [750]) := by
  have h := (c7_fetch_retry_spec c7attempt c7jitter (fun a => by norm_num [c7jitter])).1
    1 200 "msg" (by omega)
    (fun a ha => ⟨"rate", by
      have ha0 : a = 0 := by omega
      rw [ha0]
      rfl⟩)
    (by rfl) (by omega)
  simpa [c7jitter] using h

/-! ## C6: distinct auth-expired error kind

The current `services/gmail` module defines and throws `AuthExpiredError`
— the CatchUpView of part_002 imports it and tests
`err instanceof AuthExpiredError` at every call site (initial fetch,
batched and single mark-as-read / mark-as-unread) — but that version of
the module is not present under src/ (the copy at
src/src/services/gmail.ts predates the class).  The classification below
is therefore modelled from the spec; the caller-side handling is embedded
from part_002. -/

/-- Modelled from the spec: the error kinds a mailbox call surfaces —
the distinguished authentication-expired condition (thrown as
`AuthExpiredError` by the current services/gmail module, which is missing
from src/) versus a generic failure carrying a message. -/
inductive MailboxError where
  | authExpired
  | generic (message : String)
deriving DecidableEq, Repr

/-- The call paths that can encounter an auth-expired response. -/
inductive CallPath where
  | listing
  | detailFetch
  | mutation
deriving DecidableEq, Repr

/-- `response.ok`: status in [200, 300). -/
def isOkStatus (status : Nat) : Bool := 200 ≤ status && status < 300

/-- Modelled from the spec: classification of a mailbox response status
on each call path — an authentication-expired response (HTTP 401, the
distinguished status) raises the distinct `authExpired` kind on every
path; any other non-success response raises that path's generic error. -/
def classifyStatus (path : CallPath) (status : Nat) : Except MailboxError Unit :=
  if status == 401 then .error .authExpired
  else if isOkStatus status then .ok ()
  else .error (.generic (match path with
    | .listing => "Failed to fetch emails"
    | .detailFetch => "Failed to fetch message"
    | .mutation => "Failed to mark as read"))

/-- The error value CatchUpView stores for a caught error (part_002
lines 127-132 and the catch blocks of every mutation call site):
the sentinel for `AuthExpiredError`, the message otherwise. -/
def errorBanner : MailboxError → String
  | .authExpired => "__auth_expired__"
  | .generic m => m

/-- What the error screen offers (part_002 lines 477-496). -/
inductive ErrorScreen where
  | reauth
  | retry
deriving DecidableEq, Repr

/-- The render decision of part_002 line 478: the auth-expired sentinel
asks the user to sign in again, everything else gets a retry button. -/
def renderErrorScreen (err : String) : ErrorScreen :=
  if err == "__auth_expired__" then .reauth else .retry

/-- C6: on every call path (listing, detail fetch, mutation) an
authentication-expired response (the distinguished status 401) is
classified as the distinct `authExpired` error kind — a different
constructor from every generic failure — and the caller turns it into a
re-authentication request, while any other non-success response is a
generic error that gets the retry treatment instead. -/
theorem c6_auth_expired_distinct (path : CallPath) (status : Nat) :
    (classifyStatus path 401 = .error .authExpired ∧
      renderErrorScreen (errorBanner .authExpired) = .reauth) ∧
    (∀ m, MailboxError.authExpired ≠ .generic m) ∧
    (status ≠ 401 → isOkStatus status = false →
      ∃ m, classifyStatus path status = .error (.generic m) ∧
        MailboxError.generic m ≠ .authExpired ∧
        renderErrorScreen (errorBanner (.generic m)) = .retry) := by
  refine ⟨⟨rfl, rfl⟩, ?_, ?_⟩
  · intro m h
    cases h
  intro h401 hok
  unfold classifyStatus
  rw [if_neg (by simpa using h401), if_neg (by simp [hok])]
  cases path
  · exact ⟨_, ⟨rfl, ⟨(fun h => by cases h), by decide⟩⟩⟩
  · exact ⟨_, ⟨rfl, ⟨(fun h => by cases h), by decide⟩⟩⟩
  · exact ⟨_, ⟨rfl, ⟨(fun h => by cases h), by decide⟩⟩⟩

/-- C6, witness: the listing path at status 401 and at status 500. -/
theorem c6_auth_expired_distinct_witness :
    (classifyStatus .listing 401 = .error .authExpired ∧
      renderErrorScreen (errorBanner .authExpired) = .reauth) ∧
    (∃ m, classifyStatus .listing 500 = .error (.generic m) ∧
      MailboxError.generic m ≠ .authExpired ∧
      renderErrorScreen (errorBanner (.generic m)) = .retry) :=
  ⟨(c6_auth_expired_distinct .listing 500).1,
   (c6_auth_expired_distinct .listing 500).2.2 (by decide) (by decide)⟩
